import Mathlib

/-!
Verification of the DS-210 final project (job-category similarity graph and
power-law distribution analysis).

The Rust program is embedded shallowly:

* `JobCategory`, `create_graph`, `calculate_degrees`,
  `calculate_two_hop_neighbors` and `load_data` are computable Lean
  translations of the corresponding Rust functions (percentages are modelled
  as rationals, which is exact for every concrete input used below).
* The statistical part (`analyze_distribution`,
  `estimate_power_law_parameters`, `kolmogorov_smirnov_test`) works with
  `f64`; it is modelled over `ℝ`.  Rust's NaN results are modelled with
  `Option` (`none` = NaN), as explained at each definition.

Notes on library semantics that the embedding relies on:

* `petgraph::Graph::new()` constructs a **directed** graph (the petgraph
  default type parameter is `Directed`); `Graph::add_edge(a, b, w)` adds the
  directed edge `a → b`, `Graph::neighbors(n)` iterates the targets of the
  outgoing edges of `n` (one entry per edge), and `petgraph::algo::dijkstra`
  with unit edge cost computes directed shortest-path distances (number of
  edges of a shortest directed path) for every node reachable from the start.
  The graph is therefore embedded as a node list together with a list of
  ordered edges `(source, target, weight)`, and the unit-cost Dijkstra run is
  embedded as breadth-first reachability layers along outgoing edges.
* `HashMap::insert` overwrites an existing binding, so after the insertion
  loop of `create_graph` the map sends a name to the **last** index that
  carries it; `lastIdxOf` reproduces exactly that lookup.
-/

namespace DS210

/-- A parsed record: kebab `JobCategory { name, male_percentage }` from the
Rust source, with `f64` modelled as `ℚ`. -/
structure JobCategory where
  name : String
  male_percentage : ℚ
deriving DecidableEq, Repr

/-- The petgraph `Graph<(String, f64), f64>` value as the Rust program builds
it: the node payloads in index order, and the directed edge list in insertion
order, an edge being `(source index, target index, weight)`. -/
structure SimGraph where
  nodes : List (String × ℚ)
  edges : List (ℕ × ℕ × ℚ)
deriving DecidableEq, Repr

/-- The `node_indices` HashMap lookup of `create_graph`: every record was
inserted as `name ↦ its index`, in order, and `HashMap::insert` overwrites,
so a lookup returns the last index whose record carries the name.  (For a
name that is absent the Rust index operator would panic; the function is only
ever applied to names taken from `data`.) -/
def lastIdxOf (data : List JobCategory) (s : String) : ℕ :=
  data.enum.foldl (fun acc p => if p.2.name = s then p.1 else acc) 0

/-- `create_graph` (main.rs lines 53–75): one node per record in insertion
order; for every `i` and every `j > i` whose percentages differ by strictly
less than `10.0`, the directed edge
`(node_indices[name_i], node_indices[name_j], |p_i − p_j|)` is added. -/
def create_graph (data : List JobCategory) : SimGraph :=
  { nodes := data.map (fun job => (job.name, job.male_percentage))
    edges := data.enum.flatMap (fun p =>
      (data.drop (p.1 + 1)).filterMap (fun job2 =>
        let similarity := |p.2.male_percentage - job2.male_percentage|
        if similarity < 10 then
          some (lastIdxOf data p.2.name, lastIdxOf data job2.name, similarity)
        else none)) }

/-- `petgraph`'s `graph.neighbors n` on the (directed) graph: the targets of
the outgoing edges of `n`, one entry per edge. -/
def neighbors (g : SimGraph) (u : ℕ) : List ℕ :=
  (g.edges.filter (fun e => decide (e.1 = u))).map (fun e => e.2.1)

/-- `calculate_degrees` (main.rs lines 77–79): for every node index in order,
the number of petgraph neighbors (outgoing edges). -/
def calculate_degrees (g : SimGraph) : List ℕ :=
  (List.range g.nodes.length).map (fun n => (neighbors g n).length)

/-- One breadth-first expansion step along outgoing edges: the nodes
reachable in at most one more edge from a set of nodes. -/
def stepReach (g : SimGraph) (S : List ℕ) : List ℕ :=
  (S ++ S.flatMap (neighbors g)).dedup

/-- Nodes at directed distance at most `k` from `s`; `dijkstra` with unit
edge cost assigns distance `d` to exactly the nodes in
`reachUpTo g s d \ reachUpTo g s (d-1)`. -/
def reachUpTo (g : SimGraph) (s k : ℕ) : List ℕ :=
  (stepReach g)^[k] [s]

/-- `calculate_two_hop_neighbors` (main.rs lines 81–88): for every node `n`
in index order, run `dijkstra(graph, n, None, |_| 1)` — directed unit-cost
shortest paths — and count the reachable nodes whose distance is exactly 2,
i.e. the nodes reachable within two outgoing edges but not within one. -/
def calculate_two_hop_neighbors (g : SimGraph) : List ℕ :=
  (List.range g.nodes.length).map (fun n =>
    ((reachUpTo g n 2).filter (fun v => decide (v ∉ reachUpTo g n 1))).length)

/-- Rust `str::split_whitespace`: the maximal runs of non-whitespace
characters, in order (pieces between whitespace characters, with the empty
pieces dropped).  Implemented as a fold over the character list. -/
def split_whitespace (line : String) : List String :=
  ((line.toList.foldr
      (fun c groups =>
        if c.isWhitespace then [] :: groups
        else (c :: groups.headD []) :: groups.tail)
      [[]]).filter (fun g => !g.isEmpty)).map (fun g => String.mk g)

/-- The body of the `load_data` loop (main.rs lines 39–47) for a single
line.  `parseF` stands for `str::parse::<f64>` (standard-library float
parsing, external to this repository): `some q` models `Ok(v)`, `none`
models a parse error, in which case the record is dropped (the Rust code
prints a warning and pushes nothing). -/
def parse_line (parseF : String → Option ℚ) (line : String) : Option JobCategory :=
  if 2 ≤ (split_whitespace line).length then
    match parseF ((split_whitespace line).getLastD "") with
    | some male_percentage =>
      some { name := " ".intercalate (split_whitespace line).dropLast,
             male_percentage := male_percentage }
    | none => none
  else none

/-- `load_data` (main.rs lines 31–51) applied to the lines of the input
file: the first line (header) is skipped, every other line contributes at
most one record via `parse_line`. -/
def load_data (parseF : String → Option ℚ) (lines : List String) : List JobCategory :=
  (lines.drop 1).filterMap (parse_line parseF)

/-- `estimate_power_law_parameters` (main.rs lines 143–154) over `ℝ`.
Rust returns the pair `(f64::NAN, f64::NAN)` when `n ≤ 1`; that NaN pair is
modelled as `none`, and a finite-computation result `(alpha, x_min)` as
`some (alpha, x_min)`.  Rust computes `x_min` as
`fold(f64::INFINITY, f64::min)`, which on the non-empty lists reaching this
point equals the left fold of `min` started at the head. -/
noncomputable def estimate_power_law_parameters (log_data : List ℝ) :
    Option (ℝ × ℝ) :=
  if log_data.length ≤ 1 then none
  else
    let n : ℝ := log_data.length
    let sum : ℝ := log_data.sum
    let x_min : ℝ :=
      match log_data with
      | [] => 0
      | x :: xs => xs.foldl min x
    some (1 + n / (sum - n * Real.log x_min), x_min)

/-- `kolmogorov_smirnov_test` (main.rs lines 156–165) over `ℝ`: keep the
values `≥ x_min` (in their original order — the Rust variable is named
`sorted_data` but nothing sorts it), and fold `f64::max` from `0.0` over
`|(1 − (x/x_min)^(−alpha+1)) − (i+1)/m|` for the element `x` at position
`i` of the filtered sequence of length `m`. -/
noncomputable def kolmogorov_smirnov_test (log_data : List ℝ)
    (alpha x_min : ℝ) : ℝ :=
  let sorted_data := log_data.filter (fun x => decide (x_min ≤ x))
  let m := sorted_data.length
  (sorted_data.mapIdx (fun i x =>
      |(1 - (x / x_min) ^ (-alpha + 1)) - ((i : ℝ) + 1) / (m : ℝ)|)).foldl max 0

/-- A real value representable by a finite `f64`: its magnitude stays below
`2^1024`, the IEEE-754 binary64 overflow threshold (rounding a real of
smaller magnitude never yields an infinity, and NaN only arises from invalid
operations such as `0.0/0.0`). -/
def f64Finite (x : ℝ) : Prop := |x| < 2 ^ 1024

/-- One console line printed by `analyze_distribution`, keeping the printed
numbers (an `Option ℝ` is `none` when the printed `f64` is NaN). -/
inductive Output where
  | noData : Output
  | nonFiniteMean : Output
  | stats : ℝ → ℝ → ℕ → ℕ → Output
  | powerLawParams : Option ℝ → Option ℝ → Output
  | ksStat : ℝ → Output
  | fitClose : Output
  | fitModerate : Output
  | fitWeak : Output
  | insufficientData : Output

/-- The mean of `analyze_distribution` (main.rs lines 96–97): the `usize`
sum (reduced modulo `2^64`, the wrap-around of `usize` addition) cast to
`f64` and divided by the length. -/
noncomputable def meanOf (data : List ℕ) : ℝ :=
  ((data.sum % 2 ^ 64 : ℕ) : ℝ) / (data.length : ℝ)

/-- The population standard deviation of `analyze_distribution`
(main.rs lines 104–111). -/
noncomputable def stdDevOf (data : List ℕ) : ℝ :=
  Real.sqrt ((data.map (fun x => ((x : ℝ) - meanOf data) ^ 2)).sum /
    (data.length : ℝ))

/-- The `log_data` vector of `analyze_distribution` (main.rs line 119): the
natural logs of the strictly positive values, in order. -/
noncomputable def logDataOf (data : List ℕ) : List ℝ :=
  (data.filter (fun x => decide (0 < x))).map (fun (x : ℕ) => Real.log (x : ℝ))

open scoped Classical in
/-- `analyze_distribution` (main.rs lines 90–141) as the list of console
lines it prints, in order.  When `estimate_power_law_parameters` returns the
NaN pair (modelled `none`), Rust prints `α` and `x_min.exp()` as NaN, and in
`kolmogorov_smirnov_test` every comparison `x >= NaN` is false, so the
filtered list is empty and the fold returns its initial value `0.0`, which is
printed and classified as `< 0.05`; the `none` branch below records exactly
those lines. -/
noncomputable def analyze_distribution (data : List ℕ) : List Output :=
  if data = [] then [Output.noData]
  else if ¬ f64Finite (meanOf data) then [Output.nonFiniteMean]
  else
    Output.stats (meanOf data) (stdDevOf data)
        ((data.min?).getD 0) ((data.max?).getD 0) ::
      (if logDataOf data ≠ [] then
        match estimate_power_law_parameters (logDataOf data) with
        | some (alpha, x_min) =>
          let ks := kolmogorov_smirnov_test (logDataOf data) alpha x_min
          Output.powerLawParams (some alpha) (some (Real.exp x_min)) ::
            Output.ksStat ks ::
            [if ks < 0.05 then Output.fitClose
             else if ks < 0.1 then Output.fitModerate
             else Output.fitWeak]
        | none => [Output.powerLawParams none none, Output.ksStat 0, Output.fitClose]
      else [Output.insufficientData])

/-! ## Helper lemmas -/

/-- Concrete evaluation of `create_graph` on two records whose percentages
differ by less than 10. -/
theorem create_graph_pair :
    create_graph [⟨"A", 0⟩, ⟨"B", 5⟩] =
      { nodes := [("A", 0), ("B", 5)], edges := [(0, 1, 5)] } := by
  norm_num [create_graph, lastIdxOf, List.enum, List.filterMap_cons]
  all_goals decide

/-- Concrete evaluation of `create_graph` on three records chained into a
path by their percentage spacing (consecutive differences 9, remaining
difference 18). -/
theorem create_graph_path3 :
    create_graph [⟨"A", 0⟩, ⟨"B", 9⟩, ⟨"C", 18⟩] =
      { nodes := [("A", 0), ("B", 9), ("C", 18)],
        edges := [(0, 1, 9), (1, 2, 9)] } := by
  norm_num [create_graph, lastIdxOf, List.enum, List.filterMap_cons]
  all_goals decide

/-- Concrete evaluation of `create_graph` on four records chained into a
path by their percentage spacing (consecutive differences 9, all other
differences at least 18). -/
theorem create_graph_path4 :
    create_graph [⟨"A", 0⟩, ⟨"B", 9⟩, ⟨"C", 18⟩, ⟨"D", 27⟩] =
      { nodes := [("A", 0), ("B", 9), ("C", 18), ("D", 27)],
        edges := [(0, 1, 9), (1, 2, 9), (2, 3, 9)] } := by
  norm_num [create_graph, lastIdxOf, List.enum, List.filterMap_cons]
  decide

/-- Folding `min` never exceeds the initial accumulator. -/
theorem foldl_min_le_init (xs : List ℝ) : ∀ a : ℝ, xs.foldl min a ≤ a := by
  induction xs with
  | nil => intro a; exact le_refl a
  | cons b l ih => intro a; exact le_trans (ih (min a b)) (min_le_left a b)

/-- Folding `min` never exceeds any list element. -/
theorem foldl_min_le_mem (xs : List ℝ) :
    ∀ a y : ℝ, y ∈ xs → xs.foldl min a ≤ y := by
  induction xs with
  | nil => intro a y hy; cases hy
  | cons b l ih =>
    intro a y hy
    rcases List.mem_cons.mp hy with heq | hmem
    · rw [heq]
      exact le_trans (foldl_min_le_init l (min a b)) (min_le_right a b)
    · exact ih (min a b) y hmem

/-- The fold of `min` is the initial accumulator or a list element. -/
theorem foldl_min_mem (xs : List ℝ) :
    ∀ a : ℝ, xs.foldl min a = a ∨ xs.foldl min a ∈ xs := by
  induction xs with
  | nil => intro a; left; rfl
  | cons b l ih =>
    intro a
    rcases ih (min a b) with h | h
    · rcases min_choice a b with hm | hm
      · left; rw [List.foldl_cons, h, hm]
      · right; rw [List.foldl_cons, h, hm]; exact List.mem_cons_self b l
    · right; exact List.mem_cons_of_mem b h

/-- Folding `max` never goes below the initial accumulator. -/
theorem le_foldl_max (l : List ℝ) : ∀ a : ℝ, a ≤ l.foldl max a := by
  induction l with
  | nil => intro a; exact le_refl a
  | cons b t ih => intro a; exact le_trans (le_max_left a b) (ih (max a b))

/-- Folding `max` stays below any common upper bound of the accumulator and
the list elements. -/
theorem foldl_max_le (l : List ℝ) :
    ∀ a c : ℝ, a ≤ c → (∀ y ∈ l, y ≤ c) → l.foldl max a ≤ c := by
  induction l with
  | nil => intro a c hac _; exact hac
  | cons b t ih =>
    intro a c hac hall
    exact ih (max a b) c (max_le hac (hall b (List.mem_cons_self b t)))
      (fun y hy => hall y (List.mem_cons_of_mem b hy))

/-- What a successful run of `estimate_power_law_parameters` tells us: the
input has at least two elements, `x_min` is its least element, and `alpha`
is given by the estimation formula. -/
theorem estimate_some_spec (log_data : List ℝ) (alpha x_min : ℝ)
    (hest : estimate_power_law_parameters log_data = some (alpha, x_min)) :
    1 < log_data.length ∧ x_min ∈ log_data ∧ (∀ y ∈ log_data, x_min ≤ y) ∧
    alpha = 1 + (log_data.length : ℝ) /
      (log_data.sum - (log_data.length : ℝ) * Real.log x_min) := by
  by_cases h : log_data.length ≤ 1
  · rw [estimate_power_law_parameters.eq_def, if_pos h] at hest
    cases hest
  · push_neg at h
    have hne : log_data ≠ [] := by
      rintro rfl
      simp at h
    obtain ⟨x, xs, rfl⟩ := List.exists_cons_of_ne_nil hne
    rw [estimate_power_law_parameters.eq_def, if_neg (by omega)] at hest
    simp only [Option.some.injEq, Prod.mk.injEq] at hest
    obtain ⟨ha, hx⟩ := hest
    subst hx
    refine ⟨h, ?_, ?_, ha.symm⟩
    · rcases foldl_min_mem xs x with h1 | h1
      · rw [h1]; exact List.mem_cons_self x xs
      · exact List.mem_cons_of_mem x h1
    · intro y hy
      rcases List.mem_cons.mp hy with heq | hmem
      · rw [heq]; exact foldl_min_le_init xs x
      · exact foldl_min_le_mem xs x y hmem

/-- The mean computed by `analyze_distribution` is never negative. -/
theorem meanOf_nonneg (data : List ℕ) : 0 ≤ meanOf data :=
  div_nonneg (Nat.cast_nonneg _) (Nat.cast_nonneg _)

/-- The mean computed by `analyze_distribution` is a finite `f64` value: the
wrapped `usize` sum is below `2^64`, so the quotient is far below the `f64`
overflow threshold. -/
theorem f64Finite_meanOf (data : List ℕ) : f64Finite (meanOf data) := by
  have hnum : ((data.sum % 2 ^ 64 : ℕ) : ℝ) < 2 ^ 64 := by
    exact_mod_cast Nat.mod_lt _ (by positivity)
  have hb : meanOf data < 2 ^ 1024 := by
    rcases Nat.eq_zero_or_pos data.length with h0 | h1
    · unfold meanOf
      rw [h0]
      norm_num
    · have hle : meanOf data ≤ ((data.sum % 2 ^ 64 : ℕ) : ℝ) :=
        div_le_self (Nat.cast_nonneg _) (by exact_mod_cast h1)
      calc meanOf data ≤ ((data.sum % 2 ^ 64 : ℕ) : ℝ) := hle
        _ < (2 : ℝ) ^ 64 := hnum
        _ < (2 : ℝ) ^ 1024 := by norm_num
  rw [f64Finite, abs_of_nonneg (meanOf_nonneg data)]
  exact hb

/-! ## Claims -/

/-- Claim C1 (code_bug evidence).  The claim asserts that in the graph built
by `create_graph` adjacency is symmetric (node `j` is adjacent to node `i`
whenever node `i` is adjacent to node `j`).  On the two records
`("A", 0.0), ("B", 5.0)` the single tie `|0 − 5| < 10` produces only the
directed edge `0 → 1` (petgraph's `Graph::new()` is directed), so node 1 is
a petgraph neighbor of node 0 but not conversely: the code violates the
claimed symmetry. -/
theorem C1_adjacency_not_symmetric :
    1 ∈ neighbors (create_graph [⟨"A", 0⟩, ⟨"B", 5⟩]) 0 ∧
    0 ∉ neighbors (create_graph [⟨"A", 0⟩, ⟨"B", 5⟩]) 1 := by
  rw [create_graph_pair]
  decide

/-- Claim C2 (code_bug evidence).  The claim (and the repository's own test
`test_calculate_two_hop_neighbors`) requires two-hop counts `[1, 1, 1, 1]`
on a 4-node path `A–B–C–D`.  On the records with percentages
`0, 9, 18, 27` — consecutive differences 9 < 10, all others ≥ 18 — the code
returns `[1, 1, 0, 0]`: the graph is directed, so Dijkstra from `C` or `D`
never walks back along the path. -/
theorem C2_two_hop_path4_counterexample :
    calculate_two_hop_neighbors
        (create_graph [⟨"A", 0⟩, ⟨"B", 9⟩, ⟨"C", 18⟩, ⟨"D", 27⟩]) =
      [1, 1, 0, 0] ∧
    calculate_two_hop_neighbors
        (create_graph [⟨"A", 0⟩, ⟨"B", 9⟩, ⟨"C", 18⟩, ⟨"D", 27⟩]) ≠
      [1, 1, 1, 1] := by
  rw [create_graph_path4]
  decide

/-- Claim C3 (code_bug evidence).  The claim requires the degree sequence
`[1, 2, 1]` for three records linearly chained by percentage spacing.  On
percentages `0, 9, 18` the code returns `[1, 1, 0]`: `graph.neighbors` on
the directed graph counts outgoing edges only, so the middle node's incoming
edge is not counted. -/
theorem C3_degrees_path3_counterexample :
    calculate_degrees (create_graph [⟨"A", 0⟩, ⟨"B", 9⟩, ⟨"C", 18⟩]) =
      [1, 1, 0] ∧
    calculate_degrees (create_graph [⟨"A", 0⟩, ⟨"B", 9⟩, ⟨"C", 18⟩]) ≠
      [1, 2, 1] := by
  rw [create_graph_path3]
  decide

/-- Claim C4: `estimate_power_law_parameters` returns the NaN pair (modelled
`none`, never a finite number) whenever `|log_data| ≤ 1`, and otherwise
returns `x_min = min(log_data)` (an element of the list that bounds every
element from below) together with
`alpha = 1 + n / (S − n·ln(x_min))` for `n = |log_data|`, `S = Σ log_data`. -/
theorem C4_parameter_estimation (log_data : List ℝ) :
    (log_data.length ≤ 1 → estimate_power_law_parameters log_data = none) ∧
    (1 < log_data.length →
      ∃ x_min, estimate_power_law_parameters log_data =
          some (1 + (log_data.length : ℝ) /
              (log_data.sum - (log_data.length : ℝ) * Real.log x_min), x_min) ∧
        x_min ∈ log_data ∧ ∀ y ∈ log_data, x_min ≤ y) := by
  constructor
  · intro h
    simp [estimate_power_law_parameters, h]
  · intro h
    have hne : log_data ≠ [] := by
      rintro rfl
      simp at h
    obtain ⟨x, xs, rfl⟩ := List.exists_cons_of_ne_nil hne
    refine ⟨xs.foldl min x, ?_, ?_, ?_⟩
    · simp only [estimate_power_law_parameters]
      rw [if_neg (by simp only [List.length_cons] at h ⊢; omega)]
    · rcases foldl_min_mem xs x with h1 | h1
      · rw [h1]; exact List.mem_cons_self x xs
      · exact List.mem_cons_of_mem x h1
    · intro y hy
      rcases List.mem_cons.mp hy with heq | hmem
      · rw [heq]; exact foldl_min_le_init xs x
      · exact foldl_min_le_mem xs x y hmem

/-- Claim C4 witness: the singleton list yields the NaN pair, and a concrete
two-element list yields the estimated parameters. -/
theorem C4_parameter_estimation_witness :
    estimate_power_law_parameters [(4 : ℝ)] = none ∧
    ∃ x_min, estimate_power_law_parameters [(1 : ℝ), 2] =
        some (1 + ((2 : ℕ) : ℝ) /
            (([(1 : ℝ), 2].sum) - ((2 : ℕ) : ℝ) * Real.log x_min), x_min) ∧
      x_min ∈ [(1 : ℝ), 2] ∧ ∀ y ∈ [(1 : ℝ), 2], x_min ≤ y :=
  ⟨(C4_parameter_estimation [(4 : ℝ)]).1 (by simp),
   (C4_parameter_estimation [(1 : ℝ), 2]).2 (by simp)⟩

/-- Claim C5: when `alpha` and `x_min` are the parameters estimated from
`log_data` (a list of non-negative reals, as produced by the pipeline from
logs of positive integer counts) and the filtered sequence of values
`≥ x_min` is non-empty, the KS statistic — the folded maximum of
`|theoretical_cdf − empirical_cdf|` — lies in `[0, 1]`. -/
theorem C5_ks_statistic_in_unit_interval (log_data : List ℝ)
    (hpos : ∀ x ∈ log_data, 0 ≤ x) (alpha x_min : ℝ)
    (hest : estimate_power_law_parameters log_data = some (alpha, x_min))
    (hne : log_data.filter (fun x => decide (x_min ≤ x)) ≠ []) :
    0 ≤ kolmogorov_smirnov_test log_data alpha x_min ∧
    kolmogorov_smirnov_test log_data alpha x_min ≤ 1 := by
  obtain ⟨hlen, hmem, hlb, halpha⟩ :=
    estimate_some_spec log_data alpha x_min hest
  have hxm0 : 0 ≤ x_min := hpos x_min hmem
  have hrp : ∀ x : ℝ, x_min ≤ x →
      0 ≤ (x / x_min) ^ (-alpha + 1) ∧ (x / x_min) ^ (-alpha + 1) ≤ 1 := by
    intro x hx
    rcases eq_or_lt_of_le hxm0 with h0 | h0
    · rw [← h0, div_zero]
      exact ⟨Real.zero_rpow_nonneg _, Real.zero_rpow_le_one _⟩
    · have hn : (0 : ℝ) < (log_data.length : ℝ) := by
        exact_mod_cast Nat.zero_lt_of_lt hlen
      have hS : (log_data.length : ℝ) * x_min ≤ log_data.sum := by
        have h1 := List.card_nsmul_le_sum log_data x_min hlb
        rwa [nsmul_eq_mul] at h1
      have hlog : Real.log x_min ≤ x_min - 1 := Real.log_le_sub_one_of_pos h0
      have hD : 0 < log_data.sum - (log_data.length : ℝ) * Real.log x_min := by
        nlinarith [mul_le_mul_of_nonneg_left hlog hn.le]
      have he : -alpha + 1 ≤ 0 := by
        rw [halpha]
        have hdiv := div_pos hn hD
        linarith
      have hr : 1 ≤ x / x_min := (one_le_div h0).mpr hx
      exact ⟨Real.rpow_nonneg (le_trans zero_le_one hr) _,
        Real.rpow_le_one_of_one_le_of_nonpos hr he⟩
  simp only [kolmogorov_smirnov_test]
  set F := log_data.filter (fun x => decide (x_min ≤ x)) with hF
  have hmpos : 0 < F.length := List.length_pos.mpr hne
  have hterm : ∀ y ∈ F.mapIdx (fun i x =>
      |(1 - (x / x_min) ^ (-alpha + 1)) - ((i : ℝ) + 1) / (F.length : ℝ)|),
      y ≤ 1 := by
    intro y hy
    obtain ⟨i, hi, heq⟩ := List.exists_of_mem_mapIdx hy
    subst heq
    have hx_in : x_min ≤ F[i] := by
      have hmf := List.mem_filter.mp (List.getElem_mem hi)
      simpa using hmf.2
    obtain ⟨ht0, ht1⟩ := hrp (F[i]) hx_in
    have hi1 : (i : ℝ) + 1 ≤ (F.length : ℝ) := by
      exact_mod_cast Nat.succ_le_of_lt hi
    have hFpos : (0 : ℝ) < (F.length : ℝ) := by exact_mod_cast hmpos
    have hemp0 : 0 < ((i : ℝ) + 1) / (F.length : ℝ) := by positivity
    have hemp1 : ((i : ℝ) + 1) / (F.length : ℝ) ≤ 1 := (div_le_one hFpos).mpr hi1
    rw [abs_le]
    constructor
    · linarith
    · linarith
  constructor
  · exact le_foldl_max _ 0
  · exact foldl_max_le _ 0 1 zero_le_one hterm

/-- Claim C5 witness: the concrete list `[1, 1]` estimates to
`(alpha, x_min) = (2, 1)` and its KS statistic lies in `[0, 1]`. -/
theorem C5_ks_statistic_in_unit_interval_witness :
    0 ≤ kolmogorov_smirnov_test [1, 1] 2 1 ∧
    kolmogorov_smirnov_test [1, 1] 2 1 ≤ 1 :=
  C5_ks_statistic_in_unit_interval [1, 1] (by norm_num) 2 1
    (by norm_num [estimate_power_law_parameters, Real.log_one])
    (by simp)

/-- Claim C7: for a non-empty sample, `log_data` consists of the natural logs
of exactly the strictly positive sample values in their original order
(characterized by membership and position-wise correspondence with the
positive subsequence), and when `log_data` is empty the analysis prints the
summary statistics of the raw sample followed only by the
"insufficient data for power-law analysis" report — no parameter estimation
and no KS computation. -/
theorem C7_log_filter_and_insufficient_branch (data : List ℕ)
    (h : data ≠ []) :
    (∀ y : ℝ, y ∈ logDataOf data ↔
      ∃ k ∈ data, 0 < k ∧ y = Real.log (k : ℝ)) ∧
    (∀ i : ℕ, (logDataOf data)[i]? =
      ((data.filter (fun x => decide (0 < x)))[i]?).map
        (fun (k : ℕ) => Real.log (k : ℝ))) ∧
    (logDataOf data = [] →
      analyze_distribution data =
        [Output.stats (meanOf data) (stdDevOf data)
            ((data.min?).getD 0) ((data.max?).getD 0),
         Output.insufficientData]) := by
  refine ⟨?_, ?_, ?_⟩
  · intro y
    rw [logDataOf]
    constructor
    · intro hy
      obtain ⟨k, hk, rfl⟩ := List.mem_map.mp hy
      have hf := List.mem_filter.mp hk
      exact ⟨k, hf.1, by simpa using hf.2, rfl⟩
    · rintro ⟨k, hk, hpos, rfl⟩
      exact List.mem_map.mpr
        ⟨k, List.mem_filter.mpr ⟨hk, by simpa using hpos⟩, rfl⟩
  · intro i
    rw [logDataOf, List.getElem?_map]
  · intro hld
    simp [analyze_distribution, h, not_not_intro (f64Finite_meanOf data), hld]

/-- Claim C7 witness: on the all-zero sample `[0, 0]` the log data is empty
and only the summary statistics and the insufficiency report are printed. -/
theorem C7_log_filter_and_insufficient_branch_witness :
    analyze_distribution [0, 0] =
      [Output.stats (meanOf [0, 0]) (stdDevOf [0, 0])
          (([0, 0] : List ℕ).min?.getD 0) (([0, 0] : List ℕ).max?.getD 0),
       Output.insufficientData] :=
  (C7_log_filter_and_insufficient_branch [0, 0] (by simp)).2.2
    (by simp [logDataOf])

/-- Claim C10: for every non-empty sample the mean is a finite `f64` value
(so the non-finite-mean early return is unreachable), the `min`/`max`
unwraps cannot fail, and the summary-statistics line is printed. -/
theorem C10_summary_statistics_always_printed (data : List ℕ)
    (h : data ≠ []) :
    f64Finite (meanOf data) ∧
    (data.min?).isSome = true ∧ (data.max?).isSome = true ∧
    ∃ rest, analyze_distribution data =
      Output.stats (meanOf data) (stdDevOf data)
        ((data.min?).getD 0) ((data.max?).getD 0) :: rest := by
  obtain ⟨x, xs, rfl⟩ := List.exists_cons_of_ne_nil h
  refine ⟨f64Finite_meanOf _, ?_, ?_, ?_⟩
  · rw [List.min?_cons']; rfl
  · rw [List.max?_cons']; rfl
  · rw [analyze_distribution, if_neg (by simp),
      if_neg (not_not_intro (f64Finite_meanOf _))]
    exact ⟨_, rfl⟩

/-- Claim C10 witness: the one-element sample `[5]`. -/
theorem C10_summary_statistics_always_printed_witness :
    f64Finite (meanOf [5]) ∧
    (([5] : List ℕ).min?).isSome = true ∧
    (([5] : List ℕ).max?).isSome = true ∧
    ∃ rest, analyze_distribution [5] =
      Output.stats (meanOf [5]) (stdDevOf [5])
        (([5] : List ℕ).min?.getD 0) (([5] : List ℕ).max?.getD 0) :: rest :=
  C10_summary_statistics_always_printed [5] (by simp)

/-- Claim C6: on the empty sample `analyze_distribution` reports "no data"
and nothing else — no mean, standard deviation, min, max, power-law
parameters or KS statistic is computed or printed. -/
theorem C6_empty_sample_reports_no_data :
    analyze_distribution [] = [Output.noData] := by
  simp [analyze_distribution]

/-- Claim C8: in any graph, a node with no incident edges (no edge has it as
source or target) has degree 0 and two-hop count 0 at its position. -/
theorem C8_isolated_node_zero_statistics (g : SimGraph) (s : ℕ)
    (hs : s < g.nodes.length)
    (hiso : ∀ e ∈ g.edges, e.1 ≠ s ∧ e.2.1 ≠ s) :
    (calculate_degrees g)[s]? = some 0 ∧
    (calculate_two_hop_neighbors g)[s]? = some 0 := by
  have hadj : neighbors g s = [] := by
    have : g.edges.filter (fun e => decide (e.1 = s)) = [] := by
      rw [List.filter_eq_nil_iff]
      intro e he
      simpa using (hiso e he).1
    simp [neighbors, this]
  have hreach1 : reachUpTo g s 1 = [s] := by
    simp [reachUpTo, stepReach, hadj]
  have hreach2 : reachUpTo g s 2 = [s] := by
    have : reachUpTo g s 2 = stepReach g (reachUpTo g s 1) := by
      simp [reachUpTo, Function.iterate_succ_apply']
    rw [this, hreach1]
    simp [stepReach, hadj]
  refine ⟨?_, ?_⟩
  · simp [calculate_degrees, List.getElem?_map, List.getElem?_range, hs, hadj]
  · simp [calculate_two_hop_neighbors, List.getElem?_map, List.getElem?_range,
      hs, hreach1, hreach2]

/-- Claim C8 witness: a graph with a single isolated node. -/
theorem C8_isolated_node_zero_statistics_witness :
    (calculate_degrees { nodes := [("A", 0)], edges := [] })[0]? = some 0 ∧
    (calculate_two_hop_neighbors { nodes := [("A", 0)], edges := [] })[0]? =
      some 0 :=
  C8_isolated_node_zero_statistics { nodes := [("A", 0)], edges := [] } 0
    (by decide) (by simp)

/-- Claim C9: a line of at least 2 whitespace-separated tokens whose last
token parses as a float yields exactly one record, whose name is the
preceding tokens rejoined with single spaces and whose percentage is the
parsed value; if the trailing token fails to parse, the line contributes no
record.  (Stated over a one-line input after the skipped header; `parseF` is
the standard library's float parsing.) -/
theorem C9_ingestion_round_trip (parseF : String → Option ℚ)
    (header line : String) (h2 : 2 ≤ (split_whitespace line).length) :
    (∀ v, parseF ((split_whitespace line).getLastD "") = some v →
      load_data parseF [header, line] =
        [{ name := " ".intercalate (split_whitespace line).dropLast,
           male_percentage := v }]) ∧
    (parseF ((split_whitespace line).getLastD "") = none →
      load_data parseF [header, line] = []) := by
  constructor
  · intro v hv
    have hp : parse_line parseF line =
        some { name := " ".intercalate (split_whitespace line).dropLast,
               male_percentage := v } := by
      unfold parse_line
      rw [if_pos h2, hv]
    simp [load_data, hp]
  · intro hv
    have hp : parse_line parseF line = none := by
      unfold parse_line
      rw [if_pos h2, hv]
    simp [load_data, hp]

/-- Claim C9 witness: the spec's literal example line parses to the record
`{name := "Kindergarten and earlier school teachers", male_percentage :=
2.3}`, and the same line with a parse oracle that rejects every token
contributes no record. -/
theorem C9_ingestion_round_trip_witness :
    load_data (fun s => if s = "2.3" then some ((23 : ℚ)/10) else none)
        ["header", "Kindergarten and earlier school teachers\t2.3"] =
      [{ name := "Kindergarten and earlier school teachers",
         male_percentage := (23 : ℚ)/10 }] ∧
    load_data (fun _ => none)
        ["header", "Kindergarten and earlier school teachers\t2.3"] = [] := by
  have h2 : 2 ≤ (split_whitespace
      "Kindergarten and earlier school teachers\t2.3").length := by decide
  have hlast : (split_whitespace
      "Kindergarten and earlier school teachers\t2.3").getLastD "" = "2.3" := by
    decide
  have hname : " ".intercalate (split_whitespace
        "Kindergarten and earlier school teachers\t2.3").dropLast =
      "Kindergarten and earlier school teachers" := by decide
  constructor
  · have h := (C9_ingestion_round_trip
      (fun s => if s = "2.3" then some ((23 : ℚ)/10) else none)
      "header" "Kindergarten and earlier school teachers\t2.3" h2).1
      ((23 : ℚ)/10) (by rw [hlast, if_pos rfl])
    rw [h, hname]
  · exact (C9_ingestion_round_trip (fun _ => none)
      "header" "Kindergarten and earlier school teachers\t2.3" h2).2 rfl

end DS210
